import Mathlib

/-!
Verification development for an asynchronous product page scraping service.
The embedding models the scraper source code: the null safe DOM field
extraction helpers, the specifications table builder, the color and size
variant walk, URL standardization, the bounded connect and navigate retry
loop with soft 404 detection, result assembly, and the task lifecycle
commits performed by the orchestrator.
-/

namespace AliScraper

/-- Whitespace trimming as the JavaScript trim method performs it: strip
leading and trailing whitespace characters. -/
def jsTrim (s : String) : String :=
  String.mk (((s.data.dropWhile Char.isWhitespace).reverse.dropWhile Char.isWhitespace).reverse)

/-- Reading of an optional DOM element text: the source expression
querySelector then optional chaining innerText.trim then or null maps an
absent element to null and an all whitespace text to null, otherwise to the
trimmed text. -/
def getText (el : Option String) : Option String :=
  match el with
  | none => none
  | some t => if jsTrim t = "" then none else some (jsTrim t)

/-- The source expression querySelector then optional chaining outerHTML or
null: absent element or empty markup maps to null. -/
def getHtml (el : Option String) : Option String :=
  match el with
  | none => none
  | some h => if h = "" then none else some h

/-- Helper for the substring test: does the pattern occur at some position
of the haystack. -/
def containsSubstrAux : List Char → List Char → Bool
  | [], pat => pat.isEmpty
  | c :: tail, pat => pat.isPrefixOf (c :: tail) || containsSubstrAux tail pat

/-- Boolean substring test modelling the JavaScript includes method on
strings. -/
def containsSubstr (s pat : String) : Bool :=
  containsSubstrAux s.data pat.data

/-- Consume one or more decimal digits from the front of a character list,
returning the remainder, or none when the first character is not a digit. -/
def consumeDigits : List Char → Option (List Char)
  | [] => none
  | c :: cs => if c.isDigit then some (cs.dropWhile Char.isDigit) else none

/-- Test whether a character list is exactly one match of the resize suffix
pattern used by the source image cleaner: an underscore, digits, the letter
x, digits, the letter q, digits, then .jpg optionally followed by _.avif or
.webp. -/
def matchJpgPattern (cs : List Char) : Bool :=
  match cs with
  | '_' :: rest =>
    match consumeDigits rest with
    | some ('x' :: r2) =>
      match consumeDigits r2 with
      | some ('q' :: r3) =>
        match consumeDigits r3 with
        | some r4 =>
          decide (r4 = ".jpg".data) || decide (r4 = ".jpg_.avif".data)
            || decide (r4 = ".jpg.webp".data)
        | none => false
      | _ => false
    | _ => false
  | _ => false

/-- Strip the leftmost end anchored occurrence of the resize suffix pattern,
scanning left to right as the regular expression replace of the source
does. -/
def stripJpgSuffix : List Char → List Char
  | [] => []
  | c :: cs => if matchJpgPattern (c :: cs) then [] else c :: stripJpgSuffix cs

/-- Source helper cleanImageUrl, string part: take the part before the first
question mark and remove a trailing resize suffix. -/
def cleanUrl (u : String) : String :=
  String.mk (stripJpgSuffix (u.data.takeWhile (fun c => c ≠ '?')))

/-- Source helper cleanImageUrl: a missing or empty url maps to null,
otherwise the cleaned url is returned. -/
def cleanImageUrl (u : Option String) : Option String :=
  match u with
  | none => none
  | some s => if s = "" then none else some (cleanUrl s)

/-- An img element snapshot: alt and src attributes, with absent attributes
read as the empty string, as the DOM does. -/
structure Img where
  alt : String
  src : String
deriving DecidableEq, Repr

/-- A color selector control, one element matching the sku item image
selector; the img field is none when the control has no img child. -/
structure ColorControl where
  img : Option Img
  isSelected : Bool
deriving DecidableEq, Repr

/-- A size selector control, one element matching the sku item text
selector. -/
structure SizeControl where
  title : String
  innerText : String
  isSelected : Bool
deriving DecidableEq, Repr

/-- Source expression el.title or el.innerText.trim used for size labels:
an empty title attribute falls back to the trimmed text. -/
def sizeName (el : SizeControl) : String :=
  if el.title = "" then jsTrim el.innerText else el.title

/-- One specification property cell: optional title and description child
elements holding their inner text. -/
structure SpecProp where
  titleEl : Option String
  descEl : Option String
deriving DecidableEq, Repr

/-- Insertion into the JavaScript object used for specifications: an
existing key keeps its position and gets the new value, a fresh key is
appended at the end, matching property assignment on a plain object. -/
def insertSpec : List (String × String) → String → String → List (String × String)
  | [], k, v => [(k, v)]
  | (a, b) :: es, k, v =>
    if a = k then (a, v) :: es else (a, b) :: insertSpec es k v

/-- Property read on the JavaScript object: the value stored at the first
entry carrying the key. -/
def findSpec (k : String) : List (String × String) → Option String
  | [] => none
  | (a, v) :: es => if a = k then some v else findSpec k es

/-- One step of the specifications builder: the source guards the assignment
with the truthiness of both trimmed texts, so absent elements and empty
trimmed texts contribute nothing. -/
def specStep (m : List (String × String)) (p : SpecProp) : List (String × String) :=
  match p.titleEl.map jsTrim, p.descEl.map jsTrim with
  | some a, some d => if a ≠ "" ∧ d ≠ "" then insertSpec m a d else m
  | _, _ => m

/-- Specifications table builder from the source: iterate the specification
lines in document order and, inside each line, the property cells in
document order. -/
def buildSpecifications (ls : List (List SpecProp)) : List (String × String) :=
  ls.foldl (fun m line => line.foldl specStep m) []

/-- One entry of the availableColors output list. -/
structure ColorOption where
  name : Option String
  image : Option String
  isSelected : Bool
deriving DecidableEq, Repr

/-- One entry of the availableSizes output list. -/
structure SizeOption where
  size : String
  isSelected : Bool
deriving DecidableEq, Repr

/-- The description block of the output record. -/
structure DescriptionData where
  text : List String
  images : List (Option String)
deriving DecidableEq, Repr

/-- Snapshot of the rendered page as the field extractor sees it; optional
fields are none when the corresponding element is absent, and the
description source list is none when no candidate container matched. -/
structure StaticPage where
  titleText : Option String
  bulkPriceText : Option String
  couponText : Option String
  sliderImgSrcs : List String
  colorEls : List ColorControl
  sizeEls : List SizeControl
  specLines : List (List SpecProp)
  descriptionImgSrcs : Option (List String)
  pdpInfoHtml : Option String
deriving DecidableEq, Repr

/-- The pageData object produced by the page evaluation block. -/
structure StaticData where
  title : Option String
  bulkPrice : Option String
  coupon : Option String
  mainImages : List (Option String)
  availableColors : List ColorOption
  availableSizes : List SizeOption
  selectedColor : Option String
  selectedSize : Option String
  specifications : List (String × String)
  description : DescriptionData
  productHTML : Option String
deriving DecidableEq, Repr

/-- Field extractor modelled from the page evaluation block of the source:
every read is null safe, and absent elements become null values or empty
collections. -/
def extractStatic (pg : StaticPage) : StaticData :=
  let availableColors := pg.colorEls.map fun el =>
    ColorOption.mk
      (match el.img with
        | none => none
        | some im => if im.alt = "" then none else some im.alt)
      (cleanImageUrl (el.img.map Img.src))
      el.isSelected
  let availableSizes := pg.sizeEls.map fun el =>
    SizeOption.mk (sizeName el) el.isSelected
  { title := getText pg.titleText,
    bulkPrice := getText pg.bulkPriceText,
    coupon := getText pg.couponText,
    mainImages := pg.sliderImgSrcs.map (fun s => cleanImageUrl (some s)),
    availableColors := availableColors,
    availableSizes := availableSizes,
    selectedColor := (availableColors.find? ColorOption.isSelected).bind ColorOption.name,
    selectedSize := (match availableSizes.find? SizeOption.isSelected with
      | none => none
      | some s => if s.size = "" then none else some s.size),
    specifications := buildSpecifications pg.specLines,
    description := DescriptionData.mk []
      (match pg.descriptionImgSrcs with
        | none => []
        | some srcs => srcs.map (fun s => cleanImageUrl (some s))),
    productHTML := getHtml pg.pdpInfoHtml }

/-- Fallback from the source orchestrator: when the description yielded zero
images and the main image list is nonempty, reuse the main images for the
description. -/
def applyDescriptionFallback (pd : StaticData) : StaticData :=
  if pd.description.images.length = 0 ∧ 0 < pd.mainImages.length then
    { pd with description := { pd.description with images := pd.mainImages } }
  else pd

/-- The three optional price display elements read after an interaction. -/
structure PriceEls where
  current : Option String
  original : Option String
  banner : Option String
deriving DecidableEq, Repr

/-- The variationData object: three null safe getText lookups. -/
structure PriceData where
  currentPrice : Option String
  originalPrice : Option String
  discount : Option String
deriving DecidableEq, Repr

/-- Price block read from the source: three null safe getText lookups. -/
def readPrice (pe : PriceEls) : PriceData :=
  { currentPrice := getText pe.current,
    originalPrice := getText pe.original,
    discount := getText pe.banner }

/-- One entry of the priceVariations output list. -/
structure Variant where
  color : Option String
  size : Option String
  currentPrice : Option String
  originalPrice : Option String
  discount : Option String
deriving DecidableEq, Repr

/-- Build one variant entry as the source push does, spreading the price
read into the record. -/
def mkVariant (color size : Option String) (pe : PriceEls) : Variant :=
  let pd := readPrice pe
  { color := color, size := size, currentPrice := pd.currentPrice,
    originalPrice := pd.originalPrice, discount := pd.discount }

/-- Message of the error raised by the element query for the img child of a
color control when that child is absent. -/
def evalImgError : String := "failed to find element matching selector \"img\""

/-- The dynamic page behavior the variant walker interacts with: the control
lists, whether the price wait succeeds after selecting color index i and
size index j, and the price elements present after each interaction. -/
structure VariantPage where
  colors : List ColorControl
  sizes : List SizeControl
  priceWaitOk : Nat → Nat → Bool
  priceAt : Nat → Nat → PriceEls
  priceAfterColor : Nat → PriceEls
  staticPrice : PriceEls

/-- Inner size loop of the nested walk: a failed price wait skips only the
current combination and the loop continues with the next size control. -/
def walkNestedSizes (p : VariantPage) (i : Nat) (alt : String) :
    List Variant → Nat → List SizeControl → List Variant
  | acc, _, [] => acc
  | acc, j, s :: rest =>
    if p.priceWaitOk i j then
      walkNestedSizes p i alt
        (acc ++ [mkVariant (some alt) (some (sizeName s)) (p.priceAt i j)]) (j + 1) rest
    else
      walkNestedSizes p i alt acc (j + 1) rest

/-- Outer color loop of the nested walk: reading the color display name
raises when the control has no img child, which aborts the walk. -/
def walkNestedColors (p : VariantPage) :
    List Variant → Nat → List ColorControl → Except String (List Variant)
  | acc, _, [] => Except.ok acc
  | acc, i, c :: rest =>
    match c.img with
    | none => Except.error evalImgError
    | some im => walkNestedColors p (walkNestedSizes p i im.alt acc 0 p.sizes) (i + 1) rest

/-- Single color loop used when no size controls exist: one entry per color
with a null size. -/
def walkColorsOnly (p : VariantPage) :
    List Variant → Nat → List ColorControl → Except String (List Variant)
  | acc, _, [] => Except.ok acc
  | acc, i, c :: rest =>
    match c.img with
    | none => Except.error evalImgError
    | some im =>
      walkColorsOnly p (acc ++ [mkVariant (some im.alt) none (p.priceAfterColor i)]) (i + 1) rest

/-- Variant walker modelled from the source: nested color and size loop when
size controls exist, single color loop when only color controls exist, and
one synthetic entry when neither exists. -/
def walkVariants (p : VariantPage) : Except String (List Variant) :=
  if 0 < p.sizes.length then walkNestedColors p [] 0 p.colors
  else if 0 < p.colors.length then walkColorsOnly p [] 0 p.colors
  else Except.ok [mkVariant none none p.staticPrice]

/-- Parsed URL object: scheme, hostname, optional port part carrying its
leading colon, and the remainder of the URL. -/
structure UrlObject where
  scheme : List Char
  hostname : List Char
  port : List Char
  rest : List Char
deriving DecidableEq, Repr

/-- Characters ending the authority component of a URL. -/
def urlDelim (c : Char) : Bool := c = '/' || c = '?' || c = '#'

/-- Split a character list at the first colon slash slash separator. -/
def splitScheme : List Char → Option (List Char × List Char)
  | [] => none
  | c :: cs =>
    if c = ':' ∧ cs.take 2 = ['/', '/'] then some ([], cs.drop 2)
    else
      match splitScheme cs with
      | none => none
      | some (a, r) => some (c :: a, r)

/-- Split off the authority component, which runs until the first slash,
question mark or hash character. -/
def splitAuthority : List Char → List Char × List Char
  | [] => ([], [])
  | c :: cs =>
    if urlDelim c then ([], c :: cs)
    else
      let p := splitAuthority cs
      (c :: p.1, p.2)

/-- Split an authority into hostname and port part at the first colon. -/
def splitHostPort : List Char → List Char × List Char
  | [] => ([], [])
  | c :: cs =>
    if c = ':' then ([], c :: cs)
    else
      let p := splitHostPort cs
      (c :: p.1, p.2)

/-- Simplified model of the platform URL parser used by the source: a
scheme before the first colon slash slash separator, then the authority
split into hostname and port, then the remainder; canonicalizations such as
lowercasing are omitted. Parsing fails when no separator or no hostname
exists. -/
def parseUrl (s : List Char) : Option UrlObject :=
  match splitScheme s with
  | none => none
  | some (sch, r) =>
    let a := splitAuthority r
    let hp := splitHostPort a.1
    if hp.1 = [] then none
    else some { scheme := sch, hostname := hp.1, port := hp.2, rest := a.2 }

/-- Serialization of a URL object back to characters. -/
def UrlObject.render (o : UrlObject) : List Char :=
  o.scheme ++ ':' :: '/' :: '/' :: (o.hostname ++ o.port ++ o.rest)

/-- The marketplace domain used by the hostname suffix test. -/
def aliSuffix : List Char := "aliexpress.com".data

/-- The canonical www host written by the rewrite. -/
def wwwHost : List Char := "www.aliexpress.com".data

/-- URL standardization from the source: when the parsed hostname ends with
the marketplace domain, rewrite the hostname to the canonical www host and
serialize; otherwise, including on parse failure, keep the URL
unmodified. -/
def standardizeList (u : List Char) : List Char :=
  match parseUrl u with
  | none => u
  | some o =>
    if aliSuffix.isSuffixOf o.hostname then
      UrlObject.render { o with hostname := wwwHost }
    else u

/-- String level URL standardization. -/
def standardizeUrl (u : String) : String :=
  String.mk (standardizeList u.data)

/-- Observable outcome of one acquisition attempt: the connect step fails,
the navigation fails, or a page body is loaded. -/
inductive AttemptSpec where
  | connectFail (msg : String)
  | navFail (msg : String)
  | loaded (body : String)
deriving DecidableEq, Repr

/-- The soft 404 signature phrase tested against the loaded body. -/
def soft404Phrase : String := "Sorry, the page you requested can not be found"

/-- Message of the error thrown when the soft 404 signature matches. -/
def soft404ErrorMsg : String := "AliExpress served a temporary 404 page."

/-- Error classification of one acquisition attempt: connect or navigation
errors carry their message; a navigation that loads a body matching the
soft 404 signature is turned into the thrown temporary 404 error; any other
loaded body succeeds. -/
def attemptError : AttemptSpec → Option String
  | AttemptSpec.connectFail m => some m
  | AttemptSpec.navFail m => some m
  | AttemptSpec.loaded body =>
    if containsSubstr body soft404Phrase then some soft404ErrorMsg else none

/-- Whether the attempt reached the point where a browser session was
opened, so that the catch block of the retry loop closes it. -/
def browserOpened : AttemptSpec → Bool
  | AttemptSpec.connectFail _ => false
  | AttemptSpec.navFail _ => true
  | AttemptSpec.loaded _ => true

/-- The fixed retry bound of the acquisition loop. -/
def maxRetries : Nat := 3

/-- Trace of the acquisition loop: the last attempt number executed, the
last error, the attempts whose catch block closed a browser, and the
attempts after which the backoff wait ran. -/
structure AcqTrace where
  attemptsMade : Nat
  lastError : Option String
  closed : List Nat
  backoffs : List Nat
deriving DecidableEq, Repr

/-- One unfolding of the retry loop body, iterating over the remaining
attempt numbers; a successful attempt clears the last error and exits, a
failed attempt closes any opened browser, records the last error, runs the
backoff wait when further attempts remain, and continues. -/
def acquireAux (att : Nat → AttemptSpec) : List Nat → AcqTrace → AcqTrace
  | [], tr => tr
  | attempt :: rest, tr =>
    match attemptError (att attempt) with
    | none => { tr with attemptsMade := attempt, lastError := none }
    | some e =>
      let tr2 : AcqTrace :=
        { attemptsMade := attempt,
          lastError := some e,
          closed := tr.closed ++ (if browserOpened (att attempt) then [attempt] else []),
          backoffs := tr.backoffs ++ (if attempt < maxRetries then [attempt] else []) }
      if attempt < maxRetries then acquireAux att rest tr2 else tr2

/-- Retry loop from the source: attempts are numbered one to maxRetries. -/
def acquire (att : Nat → AttemptSpec) : AcqTrace :=
  acquireAux att [1, 2, 3]
    { attemptsMade := 0, lastError := none, closed := [], backoffs := [] }

/-- The assembled output record, the finalData object of the source. -/
structure ProductRecord where
  title : Option String
  currentPrice : Option String
  originalPrice : Option String
  discount : Option String
  bulkPrice : Option String
  images : List (Option String)
  priceVariations : List Variant
  selectedColor : Option String
  availableColors : List ColorOption
  selectedSize : Option String
  availableSizes : List SizeOption
  coupon : Option String
  video : Option String
  specifications : List (String × String)
  description : DescriptionData
  productHTML : Option String
deriving DecidableEq, Repr

/-- Result assembler modelled from the finalData object literal: static
fields are copied, and the three top level price fields come from the first
variant when the list is nonempty and are null otherwise. -/
def assemble (pd : StaticData) (pv : List Variant) : ProductRecord :=
  { title := pd.title,
    currentPrice := if h : 0 < pv.length then (pv.get ⟨0, h⟩).currentPrice else none,
    originalPrice := if h : 0 < pv.length then (pv.get ⟨0, h⟩).originalPrice else none,
    discount := if h : 0 < pv.length then (pv.get ⟨0, h⟩).discount else none,
    bulkPrice := pd.bulkPrice,
    images := pd.mainImages,
    priceVariations := pv,
    selectedColor := pd.selectedColor,
    availableColors := pd.availableColors,
    selectedSize := pd.selectedSize,
    availableSizes := pd.availableSizes,
    coupon := pd.coupon,
    video := none,
    specifications := pd.specifications,
    description := pd.description,
    productHTML := pd.productHTML }

/-- A task record; optional fields model absent object keys. -/
structure Task where
  status : String
  taskId : Option String
  url : Option String
  startedAt : Option String
  data : Option ProductRecord
  error : Option String
  completedAt : Option String
deriving DecidableEq, Repr

/-- The task record created at submission time. -/
def initialTask (url now : String) : Task :=
  { status := "pending", taskId := none, url := some url, startedAt := some now,
    data := none, error := none, completedAt := none }

/-- Failure commit from the source: mutate status and error in place,
leaving every other field of the record untouched. -/
def commitFailed (t : Task) (msg : String) : Task :=
  { t with status := "failed", error := some msg }

/-- Success commit from the source: the task record is replaced by a fresh
object holding only status, taskId, url, data and completedAt. -/
def commitCompleted (taskId url : String) (d : ProductRecord) (now : String) : Task :=
  { status := "completed", taskId := some taskId, url := some url, startedAt := none,
    data := some d, error := none, completedAt := some now }

/-- Environment a scraping job runs against: the per attempt acquisition
outcomes, whether the long content gate wait succeeds, and the page
snapshots read by the extractor and the walker. -/
structure ScrapeEnv where
  attempts : Nat → AttemptSpec
  contentGateOk : Bool
  staticPage : StaticPage
  variantPage : VariantPage

/-- Message of the content gate timeout error. -/
def contentGateErrorMsg : String := "Waiting for selector failed: 110000ms exceeded"

/-- Orchestrator modelled from the source performScraping: the retrying
acquisition, the content gate, static extraction with the description
fallback, the variant walk, and the terminal commit. -/
def performScraping (env : ScrapeEnv) (t : Task) (taskId url now : String) : Task :=
  match (acquire env.attempts).lastError with
  | some e => commitFailed t ("All connection attempts failed. Last error: " ++ e)
  | none =>
    if env.contentGateOk then
      let pageData := applyDescriptionFallback (extractStatic env.staticPage)
      match walkVariants env.variantPage with
      | Except.error e => commitFailed t e
      | Except.ok pv => commitCompleted taskId url (assemble pageData pv) now
    else commitFailed t contentGateErrorMsg

/-- First argument when it is present, second argument otherwise. -/
def optFallback (a b : Option String) : Option String :=
  match a with
  | some x => some x
  | none => b

/-- Contribution of one specification property cell toward the label t, as
the specification claim describes it: the trimmed description text when the
trimmed title equals t and both are nonempty, nothing otherwise. -/
def propContribution (t : String) (p : SpecProp) : Option String :=
  match p.titleEl.map jsTrim, p.descEl.map jsTrim with
  | some a, some d => if a = t ∧ a ≠ "" ∧ d ≠ "" then some d else none
  | _, _ => none

/-- Entries contributed by the color control at index i in the nested walk;
empty when the control has no img child, in which case the walk itself
raises instead of producing entries. -/
def nestedColorEntries (p : VariantPage) (i : Nat) (c : ColorControl) : List Variant :=
  match c.img with
  | none => []
  | some im =>
    (List.enumFrom 0 p.sizes).filterMap fun js =>
      if p.priceWaitOk i js.1 then
        some (mkVariant (some im.alt) (some (sizeName js.2)) (p.priceAt i js.1))
      else none

/-- Entry contributed by the color control at index i in the single color
loop; empty when the control has no img child. -/
def colorOnlyEntry (p : VariantPage) (i : Nat) (c : ColorControl) : List Variant :=
  match c.img with
  | none => []
  | some im => [mkVariant (some im.alt) none (p.priceAfterColor i)]

/-- A page snapshot where every optional element is absent and every
collection is empty. -/
def staticPageEmpty : StaticPage :=
  { titleText := none, bulkPriceText := none, couponText := none,
    sliderImgSrcs := [], colorEls := [], sizeEls := [], specLines := [],
    descriptionImgSrcs := none, pdpInfoHtml := none }

/-- The all null extraction result for the empty page. -/
def staticDataEmpty : StaticData :=
  { title := none, bulkPrice := none, coupon := none, mainImages := [],
    availableColors := [], availableSizes := [], selectedColor := none,
    selectedSize := none, specifications := [], description := { text := [], images := [] },
    productHTML := none }

/-- Decidable equality for walk results, used to settle concrete walk
outputs by evaluation. -/
instance exceptDecidableEq {ε α : Type} [DecidableEq ε] [DecidableEq α] :
    DecidableEq (Except ε α) :=
  fun a b =>
    match a, b with
    | Except.ok x, Except.ok y => decidable_of_iff (x = y) (by simp)
    | Except.error x, Except.error y => decidable_of_iff (x = y) (by simp)
    | Except.ok _, Except.error _ => isFalse (by simp)
    | Except.error _, Except.ok _ => isFalse (by simp)

/-- Variant page with zero color controls and one size control. -/
def vpNoColorOneSize : VariantPage :=
  { colors := [],
    sizes := [{ title := "M", innerText := "M", isSelected := false }],
    priceWaitOk := fun _ _ => true,
    priceAt := fun _ _ => { current := some "5.00", original := none, banner := none },
    priceAfterColor := fun _ => { current := none, original := none, banner := none },
    staticPrice := { current := none, original := none, banner := none } }

/-- Variant page with no controls at all. -/
def vpNoControls : VariantPage :=
  { colors := [], sizes := [],
    priceWaitOk := fun _ _ => true,
    priceAt := fun _ _ => { current := none, original := none, banner := none },
    priceAfterColor := fun _ => { current := none, original := none, banner := none },
    staticPrice := { current := some "7.00", original := none, banner := none } }

/-- Variant page with one color carrying an img child and two size controls
where the price wait times out for the first size only. -/
def vpTimeoutFirstSize : VariantPage :=
  { colors := [{ img := some { alt := "Red", src := "r.jpg" }, isSelected := false }],
    sizes := [{ title := "S", innerText := "S", isSelected := false },
              { title := "L", innerText := "L", isSelected := false }],
    priceWaitOk := fun _ j => j == 1,
    priceAt := fun _ _ => { current := some " 5.00 ", original := none, banner := none },
    priceAfterColor := fun _ => { current := none, original := none, banner := none },
    staticPrice := { current := none, original := none, banner := none } }

/-- Variant page whose single color control has no img child, with one size
control present. -/
def vpImglessColorWithSize : VariantPage :=
  { colors := [{ img := none, isSelected := false }],
    sizes := [{ title := "M", innerText := "M", isSelected := false }],
    priceWaitOk := fun _ _ => true,
    priceAt := fun _ _ => { current := some "5.00", original := none, banner := none },
    priceAfterColor := fun _ => { current := none, original := none, banner := none },
    staticPrice := { current := none, original := none, banner := none } }

/-- Variant page whose single color control has no img child and no size
controls. -/
def vpImglessColorNoSize : VariantPage :=
  { colors := [{ img := none, isSelected := false }],
    sizes := [],
    priceWaitOk := fun _ _ => true,
    priceAt := fun _ _ => { current := none, original := none, banner := none },
    priceAfterColor := fun _ => { current := none, original := none, banner := none },
    staticPrice := { current := none, original := none, banner := none } }

/-- Variant page with two img carrying color controls and no size
controls. -/
def vpTwoColorsNoSize : VariantPage :=
  { colors := [{ img := some { alt := "Red", src := "r.jpg" }, isSelected := true },
               { img := some { alt := "Blue", src := "b.jpg" }, isSelected := false }],
    sizes := [],
    priceWaitOk := fun _ _ => true,
    priceAt := fun _ _ => { current := none, original := none, banner := none },
    priceAfterColor := fun _ => { current := some "8.00", original := some "9.00", banner := none },
    staticPrice := { current := none, original := none, banner := none } }

/-- Attempt schedule that always fails to connect. -/
def attAllConnectFail : Nat → AttemptSpec := fun _ => AttemptSpec.connectFail "boom"

/-- Attempt schedule that always loads a soft 404 body. -/
def attAllSoft404 : Nat → AttemptSpec := fun _ => AttemptSpec.loaded soft404Phrase

/-- Attempt schedule that succeeds immediately with an ordinary body. -/
def attImmediateOk : Nat → AttemptSpec := fun _ => AttemptSpec.loaded "product page body"

/-- Fully successful environment whose page has no variant controls. -/
def envAllOk : ScrapeEnv :=
  { attempts := attImmediateOk, contentGateOk := true,
    staticPage := staticPageEmpty, variantPage := vpNoControls }

/-- Successful environment whose page has zero colors and one size. -/
def envNoColorOneSize : ScrapeEnv :=
  { attempts := attImmediateOk, contentGateOk := true,
    staticPage := staticPageEmpty, variantPage := vpNoColorOneSize }

/-- Successful environment whose page has one img less color control and
one size control. -/
def envImglessColor : ScrapeEnv :=
  { attempts := attImmediateOk, contentGateOk := true,
    staticPage := staticPageEmpty, variantPage := vpImglessColorWithSize }

/-! Characterization lemmas for the variant walk. -/

theorem walkNestedSizes_eq (p : VariantPage) (i : Nat) (alt : String) :
    ∀ (ss : List SizeControl) (j : Nat) (acc : List Variant),
      walkNestedSizes p i alt acc j ss
        = acc ++ (List.enumFrom j ss).filterMap (fun js =>
            if p.priceWaitOk i js.1 then
              some (mkVariant (some alt) (some (sizeName js.2)) (p.priceAt i js.1))
            else none) := by
  intro ss
  induction ss with
  | nil => intro j acc; simp [walkNestedSizes, List.enumFrom]
  | cons s rest ih =>
    intro j acc
    by_cases h : p.priceWaitOk i j
    · simp only [walkNestedSizes, h, if_true, ih, List.enumFrom, List.filterMap_cons,
        List.append_assoc, List.singleton_append]
    · simp only [walkNestedSizes, h, if_false, ih, List.enumFrom, List.filterMap_cons,
        Bool.false_eq_true]

theorem walkNestedColors_eq (p : VariantPage) :
    ∀ (cs : List ColorControl) (i : Nat) (acc : List Variant),
      (∀ c ∈ cs, c.img.isSome = true) →
      walkNestedColors p acc i cs
        = Except.ok (acc ++ (List.enumFrom i cs).flatMap
            (fun ic => nestedColorEntries p ic.1 ic.2)) := by
  intro cs
  induction cs with
  | nil => intro i acc _; simp [walkNestedColors, List.enumFrom]
  | cons c rest ih =>
    intro i acc h
    obtain ⟨im, him⟩ := Option.isSome_iff_exists.mp (h c (by simp))
    simp only [walkNestedColors, him]
    rw [ih (i + 1) _ (fun x hx => h x (by simp [hx])), walkNestedSizes_eq]
    simp [nestedColorEntries, him, List.enumFrom, List.append_assoc]

theorem walkColorsOnly_eq (p : VariantPage) :
    ∀ (cs : List ColorControl) (i : Nat) (acc : List Variant),
      (∀ c ∈ cs, c.img.isSome = true) →
      walkColorsOnly p acc i cs
        = Except.ok (acc ++ (List.enumFrom i cs).flatMap
            (fun ic => colorOnlyEntry p ic.1 ic.2)) := by
  intro cs
  induction cs with
  | nil => intro i acc _; simp [walkColorsOnly, List.enumFrom]
  | cons c rest ih =>
    intro i acc h
    obtain ⟨im, him⟩ := Option.isSome_iff_exists.mp (h c (by simp))
    simp only [walkColorsOnly, him]
    rw [ih (i + 1) _ (fun x hx => h x (by simp [hx]))]
    simp [colorOnlyEntry, him, List.enumFrom, List.append_assoc]

theorem walkColorsOnly_ok_length (p : VariantPage) :
    ∀ (cs : List ColorControl) (i : Nat) (acc vs : List Variant),
      walkColorsOnly p acc i cs = Except.ok vs → vs.length = acc.length + cs.length := by
  intro cs
  induction cs with
  | nil =>
    intro i acc vs h
    simp [walkColorsOnly] at h
    simp [← h]
  | cons c rest ih =>
    intro i acc vs h
    cases him : c.img with
    | none => simp [walkColorsOnly, him] at h
    | some im =>
      simp only [walkColorsOnly, him] at h
      have hl := ih (i + 1) _ vs h
      simp [List.length_append] at hl
      simp [hl, List.length_cons]
      omega

theorem colorOnlyEntries_length (p : VariantPage) :
    ∀ (cs : List ColorControl) (i : Nat), (∀ c ∈ cs, c.img.isSome = true) →
      ((List.enumFrom i cs).flatMap (fun ic => colorOnlyEntry p ic.1 ic.2)).length
        = cs.length := by
  intro cs
  induction cs with
  | nil => intro i _; simp [List.enumFrom]
  | cons c rest ih =>
    intro i h
    obtain ⟨im, him⟩ := Option.isSome_iff_exists.mp (h c (by simp))
    have hrest := ih (i + 1) (fun x hx => h x (by simp [hx]))
    rw [show List.enumFrom i (c :: rest) = (i, c) :: List.enumFrom (i + 1) rest from rfl,
      List.flatMap_cons, List.length_append, hrest, List.length_cons]
    have hhead : ((fun ic => colorOnlyEntry p ic.1 ic.2) ((i, c) : Nat × ColorControl)).length = 1 := by
      simp [colorOnlyEntry, him]
    rw [hhead]
    omega

theorem colorOnlyEntries_size_none (p : VariantPage) (cs : List ColorControl)
    (i : Nat) (v : Variant)
    (hv : v ∈ (List.enumFrom i cs).flatMap (fun ic => colorOnlyEntry p ic.1 ic.2)) :
    v.size = none := by
  rw [List.mem_flatMap] at hv
  obtain ⟨ic, _, hvc⟩ := hv
  unfold colorOnlyEntry at hvc
  cases h : ic.2.img with
  | none => rw [h] at hvc; simp at hvc
  | some im =>
    rw [h] at hvc
    simp at hvc
    rw [hvc]
    rfl

/-! Lemmas for the specifications builder. -/

theorem findSpec_insertSpec (m : List (String × String)) (k v t : String) :
    findSpec t (insertSpec m k v) = if t = k then some v else findSpec t m := by
  induction m with
  | nil =>
    by_cases h : t = k
    · subst h; simp [insertSpec, findSpec]
    · have h2 : ¬ k = t := fun hh => h hh.symm
      simp [insertSpec, findSpec, h, h2]
  | cons hd tl ih =>
    obtain ⟨a, b⟩ := hd
    by_cases hak : a = k
    · subst hak
      by_cases hta : t = a
      · subst hta; simp [insertSpec, findSpec]
      · have h2 : ¬ a = t := fun hh => hta hh.symm
        simp [insertSpec, findSpec, hta, h2]
    · simp only [insertSpec, if_neg hak]
      by_cases hat : a = t
      · have htk : ¬ t = k := fun hh => hak (hat.trans hh)
        simp [findSpec, hat, htk]
      · simp [findSpec, hat, ih]

theorem findSpec_specStep (t : String) (p : SpecProp) (m : List (String × String)) :
    findSpec t (specStep m p) = optFallback (propContribution t p) (findSpec t m) := by
  unfold specStep propContribution
  cases hta : p.titleEl.map jsTrim with
  | none => cases p.descEl.map jsTrim <;> simp [optFallback]
  | some a =>
    cases htd : p.descEl.map jsTrim with
    | none => simp [optFallback]
    | some d =>
      by_cases hne : a ≠ "" ∧ d ≠ ""
      · by_cases hat : a = t
        · subst hat
          simp [hne, findSpec_insertSpec, optFallback]
        · have h2 : ¬ (a = t ∧ a ≠ "" ∧ d ≠ "") := fun hh => hat hh.1
          have h3 : ¬ t = a := fun hh => hat hh.symm
          simp [hne, h2, h3, hat, findSpec_insertSpec, optFallback]
      · have h2 : ¬ (a = t ∧ a ≠ "" ∧ d ≠ "") := fun hh => hne hh.2
        simp [hne, h2, optFallback]

theorem optFallback_none_right (a : Option String) : optFallback a none = a := by
  cases a <;> rfl

theorem getLast?_cons_eq (l : List String) :
    ∀ a : String, (a :: l).getLast? = optFallback l.getLast? (some a) := by
  induction l with
  | nil => intro a; simp [optFallback]
  | cons b l2 ih =>
    intro a
    rw [List.getLast?_cons_cons, ih b]
    cases h : l2.getLast? <;> simp [optFallback]

theorem findSpec_foldl (t : String) (props : List SpecProp) :
    ∀ m, findSpec t (props.foldl specStep m)
      = optFallback ((props.filterMap (propContribution t)).getLast?) (findSpec t m) := by
  induction props with
  | nil => intro m; simp [optFallback]
  | cons p rest ih =>
    intro m
    rw [List.foldl_cons, ih, findSpec_specStep, List.filterMap_cons]
    cases hc : propContribution t p with
    | none => simp [optFallback]
    | some d =>
      rw [getLast?_cons_eq]
      cases (rest.filterMap (propContribution t)).getLast? <;> simp [optFallback]

/-! Claim theorems. -/

/-- Claim C1 counterexample: a job that reaches the variant walk on a page
with zero color controls and one size control commits a completed record
whose priceVariations list is empty, refuting the claimed lower bound of
one for the case of zero colors with positive sizes. -/
theorem claim1_counterexample :
    vpNoColorOneSize.colors.length = 0
    ∧ 0 < vpNoColorOneSize.sizes.length
    ∧ (performScraping envNoColorOneSize (initialTask "u" "t0") "task_1" "u" "now").status
        = "completed"
    ∧ ((performScraping envNoColorOneSize (initialTask "u" "t0") "task_1" "u" "now").data.map
        ProductRecord.priceVariations) = some [] := by
  refine ⟨rfl, by decide, by decide, by decide⟩

/-- Claim C1 (amended): the priceVariations list produced by the walk has
length at least one whenever the page has no size controls; when size
controls are present the walk yields one entry per successful price wait
and can yield the empty list, in particular when no color control
exists. -/
theorem claim1_amended (p : VariantPage) (vs : List Variant)
    (hs : p.sizes = []) (h : walkVariants p = Except.ok vs) : 1 ≤ vs.length := by
  unfold walkVariants at h
  rw [hs] at h
  simp only [List.length_nil, Nat.lt_irrefl, if_false] at h
  by_cases hc : 0 < p.colors.length
  · rw [if_pos hc] at h
    have := walkColorsOnly_ok_length p p.colors 0 [] vs h
    simp at this
    omega
  · rw [if_neg hc] at h
    simp only [Except.ok.injEq] at h
    rw [← h]
    simp

/-- Claim C1 amended witness at a concrete page without size controls. -/
theorem claim1_amended_check :
    vpNoControls.sizes = []
    ∧ ∃ vs, walkVariants vpNoControls = Except.ok vs ∧ 1 ≤ vs.length := by
  refine ⟨rfl, [mkVariant none none vpNoControls.staticPrice], rfl, ?_⟩
  exact claim1_amended vpNoControls _ rfl rfl

/-- Claim C2: the assembled record copies the static fields verbatim,
embeds the variant list and the image and specification data unchanged, and
takes the three top level price fields from the first variant when the list
is nonempty and null otherwise. -/
theorem claim2_assemble (pd : StaticData) (pv : List Variant) :
    (assemble pd pv).title = pd.title
    ∧ (assemble pd pv).bulkPrice = pd.bulkPrice
    ∧ (assemble pd pv).images = pd.mainImages
    ∧ (assemble pd pv).priceVariations = pv
    ∧ (assemble pd pv).selectedColor = pd.selectedColor
    ∧ (assemble pd pv).availableColors = pd.availableColors
    ∧ (assemble pd pv).selectedSize = pd.selectedSize
    ∧ (assemble pd pv).availableSizes = pd.availableSizes
    ∧ (assemble pd pv).coupon = pd.coupon
    ∧ (assemble pd pv).specifications = pd.specifications
    ∧ (assemble pd pv).description = pd.description
    ∧ (assemble pd pv).productHTML = pd.productHTML
    ∧ (assemble pd pv).currentPrice
        = (match pv with | [] => none | v :: _ => v.currentPrice)
    ∧ (assemble pd pv).originalPrice
        = (match pv with | [] => none | v :: _ => v.originalPrice)
    ∧ (assemble pd pv).discount
        = (match pv with | [] => none | v :: _ => v.discount) := by
  cases pv <;> simp [assemble]

/-- Claim C3 counterexample: with one color and two sizes where the price
wait times out for the first size only, the walk still records the second
size of the same color, so a timeout does not skip the remaining sizes of
that color. -/
theorem claim3_counterexample :
    vpTimeoutFirstSize.priceWaitOk 0 0 = false
    ∧ walkVariants vpTimeoutFirstSize
        = Except.ok [{ color := some "Red", size := some "L", currentPrice := some "5.00",
                       originalPrice := none, discount := none }] := by
  exact ⟨rfl, by decide⟩

/-- Claim C3 (amended): when the price wait times out for a combination the
walk skips only that one color and size combination and continues with the
next size control of the same color; it does not abort the walk or fail the
job, as the walk output equals exactly the entries of the successful
waits, in color major order. -/
theorem claim3_amended (p : VariantPage)
    (hs : 0 < p.sizes.length)
    (himg : ∀ c ∈ p.colors, c.img.isSome = true) :
    walkVariants p
      = Except.ok ((List.enumFrom 0 p.colors).flatMap
          (fun ic => nestedColorEntries p ic.1 ic.2)) := by
  unfold walkVariants
  rw [if_pos hs]
  simpa using walkNestedColors_eq p p.colors 0 [] himg

/-- Claim C3 amended witness at the concrete timeout page. -/
theorem claim3_amended_check :
    0 < vpTimeoutFirstSize.sizes.length
    ∧ walkVariants vpTimeoutFirstSize
        = Except.ok ((List.enumFrom 0 vpTimeoutFirstSize.colors).flatMap
            (fun ic => nestedColorEntries vpTimeoutFirstSize ic.1 ic.2)) :=
  ⟨by decide, claim3_amended vpTimeoutFirstSize (by decide) (by decide)⟩

/-- Claim C5 counterexample: on a page whose color control lacks an img
child, the walker raises and the job is committed as failed, refuting the
claim that the absence of a single element never aborts the pipeline. -/
theorem claim5_counterexample :
    vpImglessColorWithSize.colors = [{ img := none, isSelected := false }]
    ∧ (performScraping envImglessColor (initialTask "u" "t0") "task_5" "u" "now").status
        = "failed"
    ∧ (performScraping envImglessColor (initialTask "u" "t0") "task_5" "u" "now").error
        = some evalImgError := by
  refine ⟨rfl, by decide, by decide⟩

/-- Claim C5 (amended): every lookup of the field extractor resolves to
null or an empty collection when its target is absent, and the walker
succeeds on every page whose color controls all carry an img child; the
color name lookup of the walker, however, raises when a color control lacks
an img child, as the counterexample shows. -/
theorem claim5_amended :
    extractStatic staticPageEmpty = staticDataEmpty
    ∧ ∀ p : VariantPage, (∀ c ∈ p.colors, c.img.isSome = true) →
        ∃ vs, walkVariants p = Except.ok vs := by
  constructor
  · rfl
  · intro p h
    unfold walkVariants
    by_cases hs : 0 < p.sizes.length
    · rw [if_pos hs]
      exact ⟨_, walkNestedColors_eq p p.colors 0 [] h⟩
    · rw [if_neg hs]
      by_cases hc : 0 < p.colors.length
      · rw [if_pos hc]
        exact ⟨_, walkColorsOnly_eq p p.colors 0 [] h⟩
      · rw [if_neg hc]
        exact ⟨_, rfl⟩

/-- Claim C5 amended witness at a concrete page with img carrying
colors. -/
theorem claim5_amended_check :
    (∀ c ∈ vpTwoColorsNoSize.colors, c.img.isSome = true)
    ∧ ∃ vs, walkVariants vpTwoColorsNoSize = Except.ok vs :=
  ⟨by decide, claim5_amended.2 vpTwoColorsNoSize (by decide)⟩

/-- Claim C7 counterexample: a page with one color control lacking an img
child and no size controls makes the walk raise instead of producing
exactly one entry per color control. -/
theorem claim7_counterexample :
    vpImglessColorNoSize.colors.length = 1
    ∧ vpImglessColorNoSize.sizes.length = 0
    ∧ walkVariants vpImglessColorNoSize = Except.error evalImgError := by
  refine ⟨rfl, rfl, by decide⟩

/-- Claim C7 (amended): provided every color control carries an img child,
a page with colors and no sizes yields exactly one entry per color control
in on page order with a null size, and a page with neither yields exactly
one entry with null color and size. -/
theorem claim7_amended (p : VariantPage)
    (hs : p.sizes = [])
    (himg : ∀ c ∈ p.colors, c.img.isSome = true) :
    (p.colors = [] → walkVariants p = Except.ok [mkVariant none none p.staticPrice])
    ∧ (p.colors ≠ [] → ∃ vs, walkVariants p = Except.ok vs
        ∧ vs = (List.enumFrom 0 p.colors).flatMap (fun ic => colorOnlyEntry p ic.1 ic.2)
        ∧ vs.length = p.colors.length
        ∧ ∀ v ∈ vs, v.size = none) := by
  constructor
  · intro hc
    unfold walkVariants
    rw [hs, hc]
    simp
  · intro hc
    have hcl : 0 < p.colors.length := List.length_pos.mpr hc
    refine ⟨(List.enumFrom 0 p.colors).flatMap (fun ic => colorOnlyEntry p ic.1 ic.2), ?_, rfl, ?_, ?_⟩
    · unfold walkVariants
      rw [hs]
      simp only [List.length_nil, Nat.lt_irrefl, if_false]
      rw [if_pos hcl]
      simpa using walkColorsOnly_eq p p.colors 0 [] himg
    · exact colorOnlyEntries_length p p.colors 0 himg
    · intro v hv
      exact colorOnlyEntries_size_none p p.colors 0 v hv

/-- Claim C7 amended witness at a concrete two color page without sizes. -/
theorem claim7_amended_check :
    vpTwoColorsNoSize.sizes = []
    ∧ ∃ vs, walkVariants vpTwoColorsNoSize = Except.ok vs
        ∧ vs.length = 2 ∧ ∀ v ∈ vs, v.size = none := by
  have h := (claim7_amended vpTwoColorsNoSize rfl (by decide)).2 (by decide)
  obtain ⟨vs, h1, _, h3, h4⟩ := h
  exact ⟨rfl, vs, h1, by rw [h3]; rfl, h4⟩

/-- Claim C10: a specification row contributes an entry only when both its
trimmed label and trimmed value are nonempty, and when several rows share a
label the value of the last such row in document order is the one kept. -/
theorem claim10_specifications (ls : List (List SpecProp)) (t : String) :
    findSpec t (buildSpecifications ls)
      = ((ls.flatten).filterMap (propContribution t)).getLast? := by
  unfold buildSpecifications
  rw [← List.foldl_flatten, findSpec_foldl]
  simp [findSpec, optFallback_none_right]

/-! Lemmas and claims about acquisition and the task lifecycle. -/

theorem acquire_congr (att att2 : Nat → AttemptSpec)
    (h : ∀ i, 1 ≤ i → i ≤ 3 → attemptError (att2 i) = attemptError (att i)
        ∧ browserOpened (att2 i) = browserOpened (att i)) :
    acquire att2 = acquire att := by
  have h1 := h 1 (by omega) (by omega)
  have h2 := h 2 (by omega) (by omega)
  have h3 := h 3 (by omega) (by omega)
  simp only [acquire, acquireAux, h1.1, h1.2, h2.1, h2.2, h3.1, h3.2]

/-- Claim C4: acquisition executes at most three attempts, the loop result
depends only on the outcomes of attempts one to three so a fourth attempt
never occurs, and when all three attempts fail the job is committed as
failed with a message carrying the last underlying cause, independent of
every extraction input, so no extraction is attempted. -/
theorem claim4_retry_bound (att : Nat → AttemptSpec) :
    (acquire att).attemptsMade ≤ 3
    ∧ (∀ att2 : Nat → AttemptSpec, (∀ i, 1 ≤ i → i ≤ 3 → att2 i = att i) →
        acquire att2 = acquire att)
    ∧ ∀ e1 e2 e3, attemptError (att 1) = some e1 → attemptError (att 2) = some e2 →
        attemptError (att 3) = some e3 →
        (acquire att).lastError = some e3
        ∧ ∀ (gate : Bool) (sp : StaticPage) (vp : VariantPage) (t : Task)
            (id url now : String),
            performScraping
                { attempts := att, contentGateOk := gate, staticPage := sp, variantPage := vp }
                t id url now
              = commitFailed t ("All connection attempts failed. Last error: " ++ e3) := by
  refine ⟨?_, ?_, ?_⟩
  · cases h1 : attemptError (att 1) <;> cases h2 : attemptError (att 2) <;>
      cases h3 : attemptError (att 3) <;>
      simp [acquire, acquireAux, maxRetries, h1, h2, h3]
  · intro att2 hagree
    refine acquire_congr att att2 ?_
    intro i hi1 hi3
    rw [hagree i hi1 hi3]
    exact ⟨rfl, rfl⟩
  · intro e1 e2 e3 h1 h2 h3
    have hlast : (acquire att).lastError = some e3 := by
      simp [acquire, acquireAux, maxRetries, h1, h2, h3]
    refine ⟨hlast, ?_⟩
    intro gate sp vp t id url now
    simp [performScraping, hlast]

/-- Claim C4 witness at the schedule whose every attempt fails to
connect. -/
theorem claim4_retry_bound_check :
    (acquire attAllConnectFail).attemptsMade ≤ 3
    ∧ (acquire attAllConnectFail).lastError = some "boom"
    ∧ performScraping
        { attempts := attAllConnectFail, contentGateOk := true,
          staticPage := staticPageEmpty, variantPage := vpNoControls }
        (initialTask "u" "t0") "task_4" "u" "now"
      = commitFailed (initialTask "u" "t0")
          ("All connection attempts failed. Last error: " ++ "boom") := by
  have h := claim4_retry_bound attAllConnectFail
  have h3 := h.2.2 "boom" "boom" "boom" rfl rfl rfl
  exact ⟨h.1, h3.1,
    h3.2 true staticPageEmpty vpNoControls (initialTask "u" "t0") "task_4" "u" "now"⟩

/-- Claim C6: an attempt that loads a body matching the soft 404 signature
is classified exactly like a navigation failure with the temporary 404
message, the whole acquisition trace is unchanged under that substitution,
and when such an attempt is reached it closes its session, and when further
attempts remain it runs the backoff wait and a further attempt executes
instead of the job failing immediately. -/
theorem claim6_soft404_transient (att : Nat → AttemptSpec) (i : Nat) (body : String)
    (hload : att i = AttemptSpec.loaded body)
    (hsig : containsSubstr body soft404Phrase = true) :
    attemptError (att i) = some soft404ErrorMsg
    ∧ browserOpened (att i) = true
    ∧ acquire (Function.update att i (AttemptSpec.navFail soft404ErrorMsg)) = acquire att
    ∧ (1 ≤ i → i ≤ 3 → (∀ j, 1 ≤ j → j < i → attemptError (att j) ≠ none) →
        i ∈ (acquire att).closed
        ∧ (i < 3 → i ∈ (acquire att).backoffs ∧ i + 1 ≤ (acquire att).attemptsMade)) := by
  have herr : attemptError (att i) = some soft404ErrorMsg := by
    rw [hload]; simp [attemptError, hsig]
  have hop : browserOpened (att i) = true := by rw [hload]; rfl
  refine ⟨herr, hop, ?_, ?_⟩
  · refine acquire_congr att _ ?_
    intro k hk1 hk3
    by_cases hki : k = i
    · subst hki
      constructor
      · rw [Function.update_same, herr]
        rfl
      · rw [Function.update_same, hload]
        rfl
    · rw [Function.update_noteq hki]
      exact ⟨rfl, rfl⟩
  · intro hi1 hi3 hprev
    interval_cases i
    · cases h2 : attemptError (att 2) <;> cases h3 : attemptError (att 3) <;>
        simp [acquire, acquireAux, maxRetries, herr, h2, h3, hop]
    · have h1 := hprev 1 (by omega) (by omega)
      obtain ⟨e1, he1⟩ := Option.ne_none_iff_exists'.mp h1
      cases h3 : attemptError (att 3) <;> cases hb1 : browserOpened (att 1) <;>
        simp [acquire, acquireAux, maxRetries, he1, herr, h3, hop, hb1]
    · have h1 := hprev 1 (by omega) (by omega)
      have h2 := hprev 2 (by omega) (by omega)
      obtain ⟨e1, he1⟩ := Option.ne_none_iff_exists'.mp h1
      obtain ⟨e2, he2⟩ := Option.ne_none_iff_exists'.mp h2
      cases hb1 : browserOpened (att 1) <;> cases hb2 : browserOpened (att 2) <;>
        simp [acquire, acquireAux, maxRetries, he1, he2, herr, hop, hb1, hb2]

/-- Claim C6 witness at the schedule whose every attempt loads the soft 404
body. -/
theorem claim6_soft404_transient_check :
    attemptError (attAllSoft404 1) = some soft404ErrorMsg
    ∧ acquire (Function.update attAllSoft404 1 (AttemptSpec.navFail soft404ErrorMsg))
        = acquire attAllSoft404
    ∧ 1 ∈ (acquire attAllSoft404).closed
    ∧ 1 ∈ (acquire attAllSoft404).backoffs := by
  have h := claim6_soft404_transient attAllSoft404 1 soft404Phrase rfl (by decide)
  have h4 := h.2.2.2 (by omega) (by omega) (fun j hj1 hj2 => absurd hj1 (by omega))
  exact ⟨h.1, h.2.2.1, h4.1, (h4.2 (by omega)).1⟩

theorem performScraping_cases (env : ScrapeEnv) (t : Task) (id url now : String) :
    (∃ msg, performScraping env t id url now = commitFailed t msg)
    ∨ (∃ d, performScraping env t id url now = commitCompleted id url d now) := by
  unfold performScraping
  cases (acquire env.attempts).lastError with
  | some e => exact Or.inl ⟨_, rfl⟩
  | none =>
    by_cases hg : env.contentGateOk
    · rw [if_pos hg]
      cases walkVariants env.variantPage with
      | error e => exact Or.inl ⟨_, rfl⟩
      | ok pv => exact Or.inr ⟨_, rfl⟩
    · rw [if_neg hg]
      exact Or.inl ⟨_, rfl⟩

/-- Claim C9 counterexample: after a successful run the completed commit
replaces the whole task record, so the startedAt value recorded at
submission is no longer present, refuting the claim that the terminal
commit leaves startedAt unchanged. -/
theorem claim9_counterexample :
    (initialTask "u" "t0").startedAt = some "t0"
    ∧ (performScraping envAllOk (initialTask "u" "t0") "task_9" "u" "now").status = "completed"
    ∧ (performScraping envAllOk (initialTask "u" "t0") "task_9" "u" "now").startedAt = none := by
  refine ⟨rfl, by decide, by decide⟩

/-- Claim C9 (amended): the failed commit changes only status and error,
preserving url, startedAt, data and completedAt; the completed commit
replaces the record, keeping the submission url and setting completedAt
while dropping startedAt. -/
theorem claim9_amended (env : ScrapeEnv) (t : Task) (id url now : String) :
    ((performScraping env t id url now).status = "failed" →
        (performScraping env t id url now).url = t.url
        ∧ (performScraping env t id url now).startedAt = t.startedAt
        ∧ (performScraping env t id url now).data = t.data
        ∧ (performScraping env t id url now).completedAt = t.completedAt)
    ∧ ((performScraping env t id url now).status = "completed" →
        (performScraping env t id url now).url = some url
        ∧ (performScraping env t id url now).startedAt = none
        ∧ (performScraping env t id url now).completedAt = some now) := by
  rcases performScraping_cases env t id url now with ⟨msg, hm⟩ | ⟨d, hm⟩
  · rw [hm]
    refine ⟨fun _ => ⟨rfl, rfl, rfl, rfl⟩, fun hc => ?_⟩
    have h2 : ("failed" : String) = "completed" := hc
    exact absurd h2 (by decide)
  · rw [hm]
    refine ⟨fun hc => ?_, fun _ => ⟨rfl, rfl, rfl⟩⟩
    have h2 : ("completed" : String) = "failed" := hc
    exact absurd h2 (by decide)

/-- Claim C9 amended witness at the fully successful environment. -/
theorem claim9_amended_check :
    (performScraping envAllOk (initialTask "u" "t0") "task_9w" "u" "now").status = "completed"
    ∧ (performScraping envAllOk (initialTask "u" "t0") "task_9w" "u" "now").url = some "u"
    ∧ (performScraping envAllOk (initialTask "u" "t0") "task_9w" "u" "now").startedAt = none := by
  have h := (claim9_amended envAllOk (initialTask "u" "t0") "task_9w" "u" "now").2 (by decide)
  exact ⟨by decide, h.1, h.2.1⟩

/-! Lemmas for URL standardization. -/

theorem splitScheme_sound :
    ∀ (s a r : List Char), splitScheme s = some (a, r) →
      s = a ++ ':' :: '/' :: '/' :: r := by
  intro s
  induction s with
  | nil => intro a r h; simp [splitScheme] at h
  | cons c cs ih =>
    intro a r h
    simp only [splitScheme] at h
    by_cases hc : c = ':' ∧ cs.take 2 = ['/', '/']
    · rw [if_pos hc] at h
      simp only [Option.some.injEq, Prod.mk.injEq] at h
      obtain ⟨ha, hr⟩ := h
      subst ha
      subst hr
      rw [hc.1]
      conv_lhs => rw [← List.take_append_drop 2 cs]
      rw [hc.2]
      simp
    · rw [if_neg hc] at h
      cases hcs : splitScheme cs with
      | none => rw [hcs] at h; simp at h
      | some p =>
        obtain ⟨a2, r2⟩ := p
        rw [hcs] at h
        simp only [Option.some.injEq, Prod.mk.injEq] at h
        obtain ⟨ha, hr⟩ := h
        subst hr
        subst ha
        rw [ih a2 r2 hcs]
        simp

theorem splitScheme_roundtrip :
    ∀ (s a r : List Char), splitScheme s = some (a, r) →
      ∀ z, splitScheme (a ++ ':' :: '/' :: '/' :: z) = some (a, z) := by
  intro s
  induction s with
  | nil => intro a r h; simp [splitScheme] at h
  | cons c cs ih =>
    intro a r h z
    simp only [splitScheme] at h
    by_cases hc : c = ':' ∧ cs.take 2 = ['/', '/']
    · rw [if_pos hc] at h
      simp only [Option.some.injEq, Prod.mk.injEq] at h
      obtain ⟨ha, _⟩ := h
      subst ha
      rfl
    · rw [if_neg hc] at h
      cases hcs : splitScheme cs with
      | none => rw [hcs] at h; simp at h
      | some p =>
        obtain ⟨a2, r2⟩ := p
        rw [hcs] at h
        simp only [Option.some.injEq, Prod.mk.injEq] at h
        obtain ⟨ha, hr⟩ := h
        subst hr
        subst ha
        have hcond : ¬ (c = ':' ∧ (a2 ++ ':' :: '/' :: '/' :: z).take 2 = ['/', '/']) := by
          rintro ⟨hc1, hc2⟩
          apply hc
          refine ⟨hc1, ?_⟩
          cases a2 with
          | nil =>
            have ht : ((':' :: '/' :: '/' :: z : List Char)).take 2 = [':', '/'] := rfl
            rw [List.nil_append, ht] at hc2
            injection hc2 with h1 _
            exact absurd h1 (by decide)
          | cons x t =>
            cases t with
            | nil =>
              have ht : ((x :: ':' :: '/' :: '/' :: z : List Char)).take 2 = [x, ':'] := rfl
              rw [List.cons_append, List.nil_append] at hc2
              rw [ht] at hc2
              injection hc2 with _ h2
              injection h2 with h3 _
              exact absurd h3 (by decide)
            | cons y t2 =>
              have ht : (((x :: y :: t2 : List Char) ++ ':' :: '/' :: '/' :: z)).take 2
                  = [x, y] := rfl
              rw [ht] at hc2
              injection hc2 with hx h2
              injection h2 with hy _
              have hsound := splitScheme_sound cs (x :: y :: t2) r2 hcs
              rw [hsound]
              subst hx
              subst hy
              rfl
        rw [List.cons_append]
        simp only [splitScheme]
        split
        · next hcontra => exact absurd hcontra hcond
        · next => rw [ih a2 r2 hcs z]

theorem splitAuthority_sound :
    ∀ (s a r : List Char), splitAuthority s = (a, r) →
      s = a ++ r ∧ (∀ c ∈ a, urlDelim c = false)
        ∧ (r = [] ∨ ∃ d r2, r = d :: r2 ∧ urlDelim d = true) := by
  intro s
  induction s with
  | nil =>
    intro a r h
    simp only [splitAuthority, Prod.mk.injEq] at h
    obtain ⟨ha, hr⟩ := h
    subst ha
    subst hr
    simp
  | cons c cs ih =>
    intro a r h
    simp only [splitAuthority] at h
    cases hd : urlDelim c with
    | true =>
      rw [hd] at h
      simp only [if_true, Prod.mk.injEq] at h
      obtain ⟨ha, hr⟩ := h
      subst ha
      subst hr
      exact ⟨by simp, by simp, Or.inr ⟨c, cs, rfl, hd⟩⟩
    | false =>
      rw [hd] at h
      simp only [Bool.false_eq_true, if_false, Prod.mk.injEq] at h
      rcases hsp : splitAuthority cs with ⟨a2, r2⟩
      rw [hsp] at h
      obtain ⟨ha, hr⟩ := h
      subst ha
      subst hr
      obtain ⟨hs, hall, hrr⟩ := ih a2 r2 hsp
      refine ⟨by rw [hs]; simp, ?_, hrr⟩
      intro x hx
      rcases List.mem_cons.mp hx with rfl | hx2
      · exact hd
      · exact hall x hx2

theorem splitAuthority_complete :
    ∀ (a r : List Char), (∀ c ∈ a, urlDelim c = false) →
      (r = [] ∨ ∃ d r2, r = d :: r2 ∧ urlDelim d = true) →
      splitAuthority (a ++ r) = (a, r) := by
  intro a
  induction a with
  | nil =>
    intro r _ hr
    rcases hr with rfl | ⟨d, r2, rfl, hd⟩
    · simp [splitAuthority]
    · simp [splitAuthority, hd]
  | cons c a2 ih =>
    intro r hall hr
    have hc := hall c (by simp)
    simp [splitAuthority, hc, ih r (fun x hx => hall x (by simp [hx])) hr]

theorem splitHostPort_sound :
    ∀ (s a r : List Char), splitHostPort s = (a, r) →
      s = a ++ r ∧ (∀ c ∈ a, ¬ c = ':') ∧ (r = [] ∨ ∃ r2, r = ':' :: r2) := by
  intro s
  induction s with
  | nil =>
    intro a r h
    simp only [splitHostPort, Prod.mk.injEq] at h
    obtain ⟨ha, hr⟩ := h
    subst ha
    subst hr
    simp
  | cons c cs ih =>
    intro a r h
    simp only [splitHostPort] at h
    by_cases hd : c = ':'
    · rw [if_pos hd] at h
      simp only [Prod.mk.injEq] at h
      obtain ⟨ha, hr⟩ := h
      subst ha
      subst hr
      subst hd
      exact ⟨by simp, by simp, Or.inr ⟨cs, rfl⟩⟩
    · rw [if_neg hd] at h
      simp only [Prod.mk.injEq] at h
      rcases hsp : splitHostPort cs with ⟨a2, r2⟩
      rw [hsp] at h
      obtain ⟨ha, hr⟩ := h
      subst ha
      subst hr
      obtain ⟨hs, hall, hrr⟩ := ih a2 r2 hsp
      refine ⟨by rw [hs]; simp, ?_, hrr⟩
      intro x hx
      rcases List.mem_cons.mp hx with rfl | hx2
      · exact hd
      · exact hall x hx2

theorem splitHostPort_complete :
    ∀ (a r : List Char), (∀ c ∈ a, ¬ c = ':') →
      (r = [] ∨ ∃ r2, r = ':' :: r2) →
      splitHostPort (a ++ r) = (a, r) := by
  intro a
  induction a with
  | nil =>
    intro r _ hr
    rcases hr with rfl | ⟨r2, rfl⟩
    · simp [splitHostPort]
    · simp [splitHostPort]
  | cons c a2 ih =>
    intro r hall hr
    have hc := hall c (by simp)
    simp [splitHostPort, hc, ih r (fun x hx => hall x (by simp [hx])) hr]

theorem standardizeList_idem (u : List Char) :
    standardizeList (standardizeList u) = standardizeList u := by
  cases hp : parseUrl u with
  | none => simp [standardizeList, hp]
  | some o =>
    by_cases hsuf : aliSuffix.isSuffixOf o.hostname
    · unfold parseUrl at hp
      cases hss : splitScheme u with
      | none => rw [hss] at hp; simp at hp
      | some pr =>
        obtain ⟨sch, r⟩ := pr
        rw [hss] at hp
        simp only at hp
        rcases hsa : splitAuthority r with ⟨auth, rest⟩
        rw [hsa] at hp
        rcases hhp : splitHostPort auth with ⟨host, port⟩
        rw [hhp] at hp
        by_cases hh : host = []
        · rw [if_pos hh] at hp; simp at hp
        · rw [if_neg hh] at hp
          simp only [Option.some.injEq] at hp
          subst hp
          obtain ⟨hra, hadelim, hrest⟩ := splitAuthority_sound r auth rest hsa
          obtain ⟨hhpa, hhost, hport⟩ := splitHostPort_sound auth host port hhp
          have hwww : ∀ c ∈ wwwHost, urlDelim c = false := by decide
          have hwcolon : ∀ c ∈ wwwHost, ¬ c = ':' := by decide
          have hwne : ¬ (wwwHost = []) := by decide
          have hwsuf : aliSuffix.isSuffixOf wwwHost = true := by decide
          have hdelimfree : ∀ c ∈ wwwHost ++ port, urlDelim c = false := by
            intro c hc
            rcases List.mem_append.mp hc with hw | hp2
            · exact hwww c hw
            · exact hadelim c (by rw [hhpa]; exact List.mem_append.mpr (Or.inr hp2))
          have hrt := splitScheme_roundtrip u sch r hss (wwwHost ++ (port ++ rest))
          have hsa2 : splitAuthority (wwwHost ++ (port ++ rest)) = (wwwHost ++ port, rest) := by
            rw [← List.append_assoc]
            exact splitAuthority_complete (wwwHost ++ port) rest hdelimfree hrest
          have hhp2 : splitHostPort (wwwHost ++ port) = (wwwHost, port) :=
            splitHostPort_complete wwwHost port hwcolon hport
          have hsufh : aliSuffix.isSuffixOf host = true := hsuf
          have hpu : parseUrl u = some (UrlObject.mk sch host port rest) := by
            unfold parseUrl
            rw [hss]
            simp only [hsa, hhp]
            rw [if_neg hh]
          have hparse2 : parseUrl (UrlObject.render (UrlObject.mk sch wwwHost port rest))
              = some (UrlObject.mk sch wwwHost port rest) := by
            simp [UrlObject.render, parseUrl, hrt, hsa2, hhp2, hwne]
          have hstd1 : standardizeList u
              = UrlObject.render (UrlObject.mk sch wwwHost port rest) := by
            simp [standardizeList, hpu, hsufh]
          rw [hstd1]
          simp [standardizeList, hparse2, hwsuf]
    · simp [standardizeList, hp, hsuf]

/-- Claim C8: URL standardization is idempotent; standardizing an already
standardized URL yields the same URL, and a URL that fails to parse is
passed through unmodified on both applications. -/
theorem claim8_standardize_idem (u : String) :
    standardizeUrl (standardizeUrl u) = standardizeUrl u := by
  unfold standardizeUrl
  rw [show (String.mk (standardizeList u.data)).data = standardizeList u.data from rfl,
    standardizeList_idem]

end AliScraper
